import Mathlib

/-!
Verification of the vibeclean analysis engine against its specification.

The JavaScript sources are shallowly embedded: pure functions become Lean
functions, JS numbers become exact rationals (`ℚ`) or integers, JS sets and
maps become lists or explicit functions, and regex-driven extraction that is
performed by the JavaScript runtime's regex engine is either implemented
concretely (for the fixed patterns the theorems need to evaluate) or taken
as a function parameter (when the verified property holds for every possible
extraction result).
-/

set_option maxHeartbeats 1000000

namespace Vibeclean

/-- Embedding of JavaScript `Math.round`: round half toward positive
infinity, `Math.round x = ⌊x + 1/2⌋`. -/
def jsRound (q : ℚ) : ℤ := ⌊q + 1/2⌋

/-- Embedding of `SEVERITY_RANK[s] || 1` from `src/index.js` (the table maps
`low ↦ 1`, `medium ↦ 2`, `high ↦ 3`; any other key falls through the `||` to
the default `1`). -/
def severityRankOr1 (s : String) : ℕ :=
  if s = "low" then 1
  else if s = "medium" then 2
  else if s = "high" then 3
  else 1

/-- A reported finding: `{severity, message, ...}` (locations/files carried
by the JS object do not participate in the verified logic). -/
structure Finding where
  severity : String
  message : String
  deriving DecidableEq, Repr

/-- A category result as produced by an analyzer and consumed by
`applySeverityFilter`, `runAudit` aggregation and the baseline comparator. -/
structure Category where
  id : String
  score : ℚ
  severity : String
  totalIssues : ℤ
  findings : List Finding
  summary : String
  deriving DecidableEq, Repr

/-- Embedding of `scoreFromRatio` from `src/analyzers/utils.js`:
`Math.round(Math.min(1, Math.max(0, ratio)) * weight)`. -/
def scoreFromRatio (ratio : ℚ) (weight : ℚ) : ℤ :=
  jsRound (min 1 (max 0 ratio) * weight)

/-- The findings kept by `applySeverityFilter` for one category: when the
threshold is `low` the findings pass unchanged, otherwise only findings with
`SEVERITY_RANK[f.severity] || 1` at or above the threshold survive. -/
def filteredFindings (minimumSeverity : String) (c : Category) : List Finding :=
  if severityRankOr1 minimumSeverity ≤ 1 then c.findings
  else c.findings.filter (fun f => severityRankOr1 minimumSeverity ≤ severityRankOr1 f.severity)

/-- The per-category body of the `.map`/`.filter(Boolean)` pipeline of
`applySeverityFilter` from `src/index.js`: a category is kept (`some`) iff
its own severity rank reaches the threshold or it retains at least one
finding; kept categories get the filtered findings, a recomputed
`totalIssues` and (when no finding survives a strict threshold) a
replacement summary; dropped categories map to `none`. -/
def filterCategory (minimumSeverity : String) (c : Category) : Option Category :=
  let ff := filteredFindings minimumSeverity c
  if severityRankOr1 minimumSeverity ≤ severityRankOr1 c.severity ∨ 0 < ff.length then
    some { c with
      findings := ff
      totalIssues :=
        if severityRankOr1 minimumSeverity ≤ 1 then c.totalIssues
        else if 0 < ff.length then (ff.length : ℤ) else 0
      summary :=
        if severityRankOr1 minimumSeverity ≤ 1 ∨ 0 < ff.length then c.summary
        else "No " ++ minimumSeverity ++ "+ findings for this category." }
  else none

/-- Embedding of `applySeverityFilter` from `src/index.js`: the
`.map(...).filter(Boolean)` pipeline over the category list, i.e. a
`filterMap` of `filterCategory`. -/
def applySeverityFilter (categories : List Category) (minimumSeverity : String) :
    List Category :=
  categories.filterMap (filterCategory minimumSeverity)

/-- The mean category score used by `runAudit`
(`filteredCategories.length ? sum / length : 0`). -/
def averageIssueScore (cats : List Category) : ℚ :=
  if cats.length = 0 then 0
  else ((cats.map (fun c => c.score)).sum) / (cats.length : ℚ)

/-- The overall score formula of `runAudit`:
`Math.max(0, Math.min(100, Math.round(100 - averageIssueScore * 10)))`. -/
def overallScoreOfAvg (avg : ℚ) : ℤ :=
  max 0 (min 100 (jsRound (100 - avg * 10)))

/-- A scanned source file record `{relativePath, content, extension}`. -/
structure SourceFile where
  relativePath : String
  content : String
  extension : String
  deriving DecidableEq, Repr

/-- The report fields relevant to the verified aggregation logic. -/
structure Report where
  overallScore : ℤ
  totalIssues : ℤ
  categories : List Category
  deriving DecidableEq, Repr

/-- Embedding of the scoring core of `runAudit` from `src/index.js`: the
zero-file early return (`overallScore: 100, totalIssues: 0, categories: []`),
otherwise the severity filter followed by mean-score aggregation and the
`totalIssues` sum over the filtered categories. -/
def buildReport (files : List SourceFile) (categoryResults : List Category)
    (minimumSeverity : String) : Report :=
  if files.isEmpty then ⟨100, 0, []⟩
  else
    let filtered := applySeverityFilter categoryResults minimumSeverity
    ⟨overallScoreOfAvg (averageIssueScore filtered),
     (filtered.map (fun c => c.totalIssues)).sum,
     filtered⟩

/-- The mean of a list of scores (0 for the empty list), as used in the
specification's overall-score formula. -/
def meanScores (scores : List ℚ) : ℚ :=
  if scores.length = 0 then 0 else scores.sum / (scores.length : ℚ)

/-- Overall score stated by the specification sentence of claim C1:
`round(clamp(0,100, 100 - 10 × mean(categoryScores)))` applied to the
UNFILTERED per-category scores.  This definition follows the claim's words
(not the source) and is compared against `buildReport`. -/
def claimedOverallFromUnfiltered (cats : List Category) : ℤ :=
  jsRound (max 0 (min 100 (100 - 10 * meanScores (cats.map (fun c => c.score)))))

/-- The keep-condition of `applySeverityFilter`, as a predicate on the input
category (used to characterize which categories survive the filter). -/
def categoryKept (minimumSeverity : String) (c : Category) : Bool :=
  decide (severityRankOr1 minimumSeverity ≤ severityRankOr1 c.severity) ||
    decide (0 < (filteredFindings minimumSeverity c).length)

/-- Sample scanned file used to instantiate report-level theorems. -/
def fileA : SourceFile := ⟨"a.js", "", ".js"⟩

/-- Sample low-severity category with no findings. -/
def catLow : Category := ⟨"leftovers", 2, "low", 0, [], "s"⟩

/-- Sample high-severity category with no findings. -/
def catHigh : Category := ⟨"security", 8, "high", 0, [], "s"⟩

/-- Sample high-severity category whose only finding is low-severity. -/
def catMed : Category := ⟨"errorhandling", 5, "high", 1, [⟨"low", "m"⟩], "s"⟩

lemma filterCategory_eq_none (minSev : String) (c : Category)
    (hc : ¬ (severityRankOr1 minSev ≤ severityRankOr1 c.severity ∨
      0 < (filteredFindings minSev c).length)) :
    filterCategory minSev c = none := by
  simp only [filterCategory]
  rw [if_neg hc]

lemma applySeverityFilter_map_score (cats : List Category) (minSev : String) :
    (applySeverityFilter cats minSev).map (fun c => c.score) =
      ((cats.filter (categoryKept minSev)).map (fun c => c.score)) := by
  induction cats with
  | nil => rfl
  | cons c cs ih =>
    by_cases hc : severityRankOr1 minSev ≤ severityRankOr1 c.severity ∨
        0 < (filteredFindings minSev c).length
    · have hk : categoryKept minSev c = true := by
        rw [categoryKept, Bool.or_eq_true]
        rcases hc with h | h
        · exact Or.inl (decide_eq_true h)
        · exact Or.inr (decide_eq_true h)
      have hfc : filterCategory minSev c = some { c with
          findings := filteredFindings minSev c
          totalIssues :=
            if severityRankOr1 minSev ≤ 1 then c.totalIssues
            else if 0 < (filteredFindings minSev c).length then
              ((filteredFindings minSev c).length : ℤ) else 0
          summary :=
            if severityRankOr1 minSev ≤ 1 ∨ 0 < (filteredFindings minSev c).length
            then c.summary
            else "No " ++ minSev ++ "+ findings for this category." } := by
        simp only [filterCategory]
        rw [if_pos hc]
      rw [applySeverityFilter, List.filterMap_cons_some hfc,
        List.filter_cons_of_pos hk, List.map_cons, List.map_cons]
      exact congrArg₂ List.cons rfl ih
    · have hk : categoryKept minSev c = false := by
        have h1 : ¬ severityRankOr1 minSev ≤ severityRankOr1 c.severity :=
          fun hx => hc (Or.inl hx)
        have h2 : ¬ 0 < (filteredFindings minSev c).length :=
          fun hx => hc (Or.inr hx)
        rw [categoryKept, decide_eq_false h1, decide_eq_false h2]
        rfl
      rw [applySeverityFilter, List.filterMap_cons_none
        (filterCategory_eq_none minSev c hc), List.filter_cons_of_neg (by simp [hk])]
      exact ih

lemma averageIssueScore_eq_meanScores (cats : List Category) :
    averageIssueScore cats = meanScores (cats.map (fun c => c.score)) := by
  simp [averageIssueScore, meanScores]

lemma severityRankOr1_high : severityRankOr1 "high" = 3 := rfl

lemma severityRankOr1_low : severityRankOr1 "low" = 1 := rfl

lemma overallScoreOfAvg_eight : overallScoreOfAvg 8 = 20 := by
  have hfloor : ⌊(41 / 2 : ℚ)⌋ = (20 : ℤ) := by
    rw [Int.floor_eq_iff]
    constructor <;> norm_num
  rw [overallScoreOfAvg, jsRound,
    show (100 : ℚ) - 8 * 10 + 1 / 2 = 41 / 2 from by norm_num, hfloor]
  rfl

lemma filterCategory_high_catLow : filterCategory "high" catLow = none := by
  apply filterCategory_eq_none
  rw [catLow]
  intro hor
  rcases hor with hx | hx
  · rw [severityRankOr1_high] at hx
    simp only [severityRankOr1_low] at hx
    omega
  · simp [filteredFindings, severityRankOr1] at hx

lemma filterCategory_high_catHigh : filterCategory "high" catHigh = some
    { catHigh with summary := "No high+ findings for this category." } := by
  have hff : filteredFindings "high" catHigh = [] := by
    simp [filteredFindings, severityRankOr1, catHigh]
  simp only [filterCategory, hff]
  rw [if_pos (Or.inl (by rw [catHigh]))]
  simp [severityRankOr1, catHigh]

/-- Claim C1 fails on the code: with `--severity high`, the low-severity,
finding-free category is dropped by `applySeverityFilter`, so the overall
score is computed from the remaining categories only (here `20`), while the
claim's formula over the unfiltered per-category scores gives `50`. -/
theorem severityFilter_overall_counterexample :
    (buildReport [fileA] [catLow, catHigh] "high").overallScore = 20 ∧
    claimedOverallFromUnfiltered [catLow, catHigh] = 50 ∧
    (buildReport [fileA] [catLow, catHigh] "high").overallScore ≠
      claimedOverallFromUnfiltered [catLow, catHigh] := by
  have hAS : applySeverityFilter [catLow, catHigh] "high" =
      [{ catHigh with summary := "No high+ findings for this category." }] := by
    rw [applySeverityFilter, List.filterMap_cons_none filterCategory_high_catLow,
      List.filterMap_cons_some filterCategory_high_catHigh]
    rfl
  have h1 : (buildReport [fileA] [catLow, catHigh] "high").overallScore = 20 := by
    have havg : averageIssueScore
        [{ catHigh with summary := "No high+ findings for this category." }] = 8 := by
      simp [averageIssueScore, catHigh]
    simp only [buildReport, List.isEmpty_cons, Bool.false_eq_true, if_false, hAS, havg,
      overallScoreOfAvg_eight]
  have h2 : claimedOverallFromUnfiltered [catLow, catHigh] = 50 := by
    have hmean : meanScores ([catLow, catHigh].map (fun c => c.score)) = 5 := by
      simp [meanScores, catLow, catHigh]
      norm_num
    rw [claimedOverallFromUnfiltered, hmean,
      show (100 : ℚ) - 10 * 5 = 50 from by norm_num,
      show max (0 : ℚ) (min 100 50) = 50 from by norm_num, jsRound]
    rw [show (50 : ℚ) + 1 / 2 = 101 / 2 from by norm_num]
    rw [Int.floor_eq_iff]
    constructor <;> norm_num
  exact ⟨h1, h2, by rw [h1, h2]; decide⟩

/-- Claim C1 as amended: the severity filter never alters the score of a
category it keeps (the surviving scores are exactly the scores of the kept
input categories, in order), and the overall score is
`clamp(0,100, round(100 − 10 × mean))` of the KEPT categories' (unfiltered)
scores — not of all categories' scores. -/
theorem severityFilter_amended (files : List SourceFile) (cats : List Category)
    (minSev : String) (h : files ≠ []) :
    ((applySeverityFilter cats minSev).map (fun c => c.score) =
      ((cats.filter (categoryKept minSev)).map (fun c => c.score))) ∧
    (buildReport files cats minSev).overallScore =
      overallScoreOfAvg
        (meanScores (((cats.filter (categoryKept minSev)).map (fun c => c.score)))) := by
  refine ⟨applySeverityFilter_map_score cats minSev, ?_⟩
  have hfe : files.isEmpty = false := by
    cases files with
    | nil => exact absurd rfl h
    | cons f fs => rfl
  simp only [buildReport, hfe, Bool.false_eq_true, if_false]
  rw [averageIssueScore_eq_meanScores, applySeverityFilter_map_score]

/-- Witness for `severityFilter_amended` at a concrete input. -/
theorem severityFilter_amended_witness :
    ([fileA] : List SourceFile) ≠ [] ∧
    (((applySeverityFilter [catLow, catHigh] "high").map (fun c => c.score) =
      ((([catLow, catHigh].filter (categoryKept "high"))).map (fun c => c.score))) ∧
    (buildReport [fileA] [catLow, catHigh] "high").overallScore =
      overallScoreOfAvg
        (meanScores ((([catLow, catHigh].filter (categoryKept "high"))).map
          (fun c => c.score)))) :=
  ⟨by decide, severityFilter_amended [fileA] [catLow, catHigh] "high" (by decide)⟩

lemma filteredFindings_eq_nil (minSev : String) (cat : Category)
    (h : 1 < severityRankOr1 minSev)
    (hfind : ∀ f ∈ cat.findings, severityRankOr1 f.severity < severityRankOr1 minSev) :
    filteredFindings minSev cat = [] := by
  have : ¬ severityRankOr1 minSev ≤ 1 := by omega
  simp only [filteredFindings, if_neg this]
  rw [List.filter_eq_nil_iff]
  intro f hf
  have := hfind f hf
  simp only [decide_eq_true_eq]
  omega

/-- Claim C10: with a threshold stricter than `low`, `applySeverityFilter`
removes a category outright when its own severity is below the threshold and
it has no finding at or above the threshold — so that category contributes
neither to the overall-score mean nor to the `totalIssues` sum of the built
report — and a category that is kept (severity at threshold) but loses all
its findings gets `totalIssues = 0` and the replacement summary. -/
theorem applySeverityFilter_strict (minSev : String) (h : 1 < severityRankOr1 minSev)
    (cats₁ cats₂ : List Category) (cat : Category) (files : List SourceFile) :
    ((severityRankOr1 cat.severity < severityRankOr1 minSev →
      (∀ f ∈ cat.findings, severityRankOr1 f.severity < severityRankOr1 minSev) →
      applySeverityFilter (cats₁ ++ cat :: cats₂) minSev =
          applySeverityFilter (cats₁ ++ cats₂) minSev ∧
        buildReport files (cats₁ ++ cat :: cats₂) minSev =
          buildReport files (cats₁ ++ cats₂) minSev)) ∧
    (severityRankOr1 minSev ≤ severityRankOr1 cat.severity →
      (∀ f ∈ cat.findings, severityRankOr1 f.severity < severityRankOr1 minSev) →
      applySeverityFilter (cat :: cats₂) minSev =
        { cat with
          findings := []
          totalIssues := 0
          summary := "No " ++ minSev ++ "+ findings for this category." } ::
          applySeverityFilter cats₂ minSev) := by
  constructor
  · intro hdrop hfind
    have hff := filteredFindings_eq_nil minSev cat h hfind
    have hkeep : ¬ (severityRankOr1 minSev ≤ severityRankOr1 cat.severity ∨
        0 < (filteredFindings minSev cat).length) := by
      rw [hff]
      simp only [List.length_nil]
      omega
    have hfilter : applySeverityFilter (cats₁ ++ cat :: cats₂) minSev =
        applySeverityFilter (cats₁ ++ cats₂) minSev := by
      rw [applySeverityFilter, applySeverityFilter, List.filterMap_append,
        List.filterMap_append,
        List.filterMap_cons_none (filterCategory_eq_none minSev cat hkeep)]
    refine ⟨hfilter, ?_⟩
    simp only [buildReport, hfilter]
  · intro hkeep hfind
    have hff := filteredFindings_eq_nil minSev cat h hfind
    have hle : ¬ severityRankOr1 minSev ≤ 1 := by omega
    have hfc : filterCategory minSev cat = some { cat with
        findings := []
        totalIssues := 0
        summary := "No " ++ minSev ++ "+ findings for this category." } := by
      simp only [filterCategory, hff]
      rw [if_pos (Or.inl hkeep)]
      simp [hle]
    rw [applySeverityFilter, List.filterMap_cons_some hfc]
    rfl

/-- Witness for `applySeverityFilter_strict` at concrete inputs: the
low-severity finding-free category is dropped, and the kept high-severity
category with only a low finding is emptied and re-summarized. -/
theorem applySeverityFilter_strict_witness :
    (1 < severityRankOr1 "high" ∧
      applySeverityFilter ([] ++ catLow :: [catHigh]) "high" =
        applySeverityFilter ([] ++ [catHigh]) "high" ∧
      buildReport [fileA] ([] ++ catLow :: [catHigh]) "high" =
        buildReport [fileA] ([] ++ [catHigh]) "high") ∧
    applySeverityFilter (catMed :: []) "high" =
      { catMed with
        findings := []
        totalIssues := 0
        summary := "No high+ findings for this category." } ::
        applySeverityFilter [] "high" :=
  ⟨⟨by decide,
    (applySeverityFilter_strict "high" (by decide) [] [catHigh] catLow [fileA]).1
      (by decide) (by decide)⟩,
   (applySeverityFilter_strict "high" (by decide) [] [] catMed [fileA]).2
      (by decide) (by decide)⟩
lemma jsRound_nonneg_of (q : ℚ) (h : 0 ≤ q) : 0 ≤ jsRound q := by
  rw [jsRound, Int.le_floor]
  push_cast
  linarith

lemma jsRound_le_of (q : ℚ) (b : ℤ) (h : q < b + 1/2) : jsRound q ≤ b := by
  rw [jsRound]
  have : (⌊q + 1/2⌋ : ℚ) ≤ q + 1/2 := Int.floor_le _
  by_contra hcon
  push_neg at hcon
  have : (b : ℚ) + 1 ≤ ⌊q + 1/2⌋ := by exact_mod_cast hcon
  linarith

/-- Claim C5: `scoreFromRatio` (weight 10) always lands in `[0,10]` thanks to
the clamp of the ratio to `[0,1]`; the report's overall score is always in
`[0,100]`; and a run over zero scanned files returns exactly
`overallScore = 100`, `totalIssues = 0` and no categories. -/
theorem score_bounds :
    (∀ r : ℚ, 0 ≤ scoreFromRatio r 10 ∧ scoreFromRatio r 10 ≤ 10) ∧
    (∀ (files : List SourceFile) (cats : List Category) (sev : String),
      0 ≤ (buildReport files cats sev).overallScore ∧
        (buildReport files cats sev).overallScore ≤ 100) ∧
    (∀ (cats : List Category) (sev : String),
      buildReport [] cats sev = ⟨100, 0, []⟩) := by
  refine ⟨?_, ?_, ?_⟩
  · intro r
    have h0 : (0:ℚ) ≤ min 1 (max 0 r) := le_min (by norm_num) (le_max_left 0 r)
    have h1 : min 1 (max 0 r) ≤ 1 := min_le_left 1 (max 0 r)
    constructor
    · apply jsRound_nonneg_of
      nlinarith
    · apply jsRound_le_of
      nlinarith
  · intro files cats sev
    cases files with
    | nil => exact ⟨by norm_num [buildReport], by norm_num [buildReport]⟩
    | cons f fs =>
      simp only [buildReport, List.isEmpty_cons, Bool.false_eq_true, if_false,
        overallScoreOfAvg]
      constructor
      · exact le_max_left 0 _
      · exact max_le (by norm_num) (min_le_left 100 _)
  · intro cats sev
    rfl

/-! ### Baseline comparator (`src/baseline.js`) -/

/-- Counts of findings per severity bucket, as built by
`countFindingsBySeverity` in `src/baseline.js`. -/
structure SevCounts where
  low : ℕ
  medium : ℕ
  high : ℕ
  deriving DecidableEq, Repr

/-- One step of `countFindingsBySeverity`: `finding.severity || "low"` is
bucketed into its own counter when it is a known key of the counts object,
and into `low` otherwise. -/
def bumpSeverity (c : SevCounts) (s : String) : SevCounts :=
  let key := if s = "" then "low" else s
  if key = "medium" then { c with medium := c.medium + 1 }
  else if key = "high" then { c with high := c.high + 1 }
  else { c with low := c.low + 1 }

/-- Embedding of `countFindingsBySeverity` from `src/baseline.js`. -/
def countFindingsBySeverity (cats : List Category) : SevCounts :=
  cats.foldl (fun acc c => c.findings.foldl (fun a f => bumpSeverity a f.severity) acc)
    ⟨0, 0, 0⟩

/-- A per-category entry of a baseline snapshot (`categorySnapshot`). -/
structure BaselineCategory where
  score : ℚ
  totalIssues : ℤ
  severity : String
  deriving DecidableEq, Repr

/-- The per-severity finding counts stored in a baseline snapshot. -/
structure BaselineFindingCounts where
  low : ℤ
  medium : ℤ
  high : ℤ
  deriving DecidableEq, Repr

/-- A well-formed persisted `BaselineSnapshot` (all numeric fields present,
`categories` modelled as the JS object's key lookup). -/
structure BaselineSnapshot where
  generatedAt : Option String
  overallScore : ℤ
  totalIssues : ℤ
  findingCounts : BaselineFindingCounts
  categories : String → Option BaselineCategory

/-- The `deltas` object computed by `compareAgainstBaseline`. -/
structure Deltas where
  score : ℤ
  totalIssues : ℤ
  highFindings : ℤ
  mediumFindings : ℤ
  deriving DecidableEq, Repr

/-- The comparator result of `compareAgainstBaseline`. -/
structure Comparison where
  baselineGeneratedAt : Option String
  baselineScore : ℤ
  baselineTotalIssues : ℤ
  currentScore : ℤ
  currentTotalIssues : ℤ
  deltas : Deltas
  regressions : List String

/-- The per-category body of the `worsenedCategories` loop of
`compareAgainstBaseline`: categories absent from the baseline map are
skipped, and a positive score delta produces a `"id (+delta)"` entry. -/
def worsenedEntry (snapshot : BaselineSnapshot) (c : Category) : Option String :=
  match snapshot.categories c.id with
  | none => none
  | some prev =>
    if 0 < c.score - prev.score then
      some (c.id ++ " (+" ++ toString (c.score - prev.score) ++ ")")
    else none

/-- Embedding of `compareAgainstBaseline` from `src/baseline.js`: exact
deltas and the four regression pushes (score drop, issue increase,
high-severity finding increase, per-category score increases). -/
def compareAgainstBaseline (report : Report) (snapshot : BaselineSnapshot) :
    Comparison :=
  let currentCounts := countFindingsBySeverity report.categories
  let deltas : Deltas :=
    ⟨report.overallScore - snapshot.overallScore,
     report.totalIssues - snapshot.totalIssues,
     (currentCounts.high : ℤ) - snapshot.findingCounts.high,
     (currentCounts.medium : ℤ) - snapshot.findingCounts.medium⟩
  let r1 :=
    if deltas.score < 0 then
      ["Baseline regression: overall score dropped by " ++ toString (-deltas.score) ++
        " (from " ++ toString snapshot.overallScore ++ " to " ++
        toString report.overallScore ++ ")."]
    else []
  let r2 :=
    if 0 < deltas.totalIssues then
      ["Baseline regression: total issues increased by " ++ toString deltas.totalIssues ++
        " (from " ++ toString snapshot.totalIssues ++ " to " ++
        toString report.totalIssues ++ ")."]
    else []
  let r3 :=
    if 0 < deltas.highFindings then
      ["Baseline regression: high-severity findings increased by " ++
        toString deltas.highFindings ++ "."]
    else []
  let worsened := report.categories.filterMap (worsenedEntry snapshot)
  let r4 :=
    if 0 < worsened.length then
      ["Baseline regression: category scores worsened in " ++
        String.intercalate ", " worsened ++ "."]
    else []
  ⟨snapshot.generatedAt, snapshot.overallScore, snapshot.totalIssues,
   report.overallScore, report.totalIssues, deltas, r1 ++ r2 ++ r3 ++ r4⟩

lemma worsened_ne_nil_iff (report : Report) (snapshot : BaselineSnapshot) :
    report.categories.filterMap (worsenedEntry snapshot) ≠ [] ↔
      ∃ c ∈ report.categories, ∃ prev,
        snapshot.categories c.id = some prev ∧ prev.score < c.score := by
  rw [Ne, List.filterMap_eq_nil_iff]
  push_neg
  constructor
  · rintro ⟨c, hc, hne⟩
    refine ⟨c, hc, ?_⟩
    rcases hcat : snapshot.categories c.id with _ | prev
    · simp [worsenedEntry, hcat] at hne
    · by_cases hscore : 0 < c.score - prev.score
      · exact ⟨prev, rfl, by linarith⟩
      · simp [worsenedEntry, hcat, hscore] at hne
  · rintro ⟨c, hc, prev, hcat, hscore⟩
    refine ⟨c, hc, ?_⟩
    have hpos : 0 < c.score - prev.score := by linarith
    simp [worsenedEntry, hcat, hpos]

/-- Claim C6: `compareAgainstBaseline` returns a non-empty `regressions`
list iff the current overall score strictly dropped, total issues strictly
rose, high-severity findings strictly rose, or some category present in
both report and baseline has a strictly higher score than its baseline
entry; and the returned deltas are the exact differences. -/
lemma ite_singleton_ne_nil (P : Prop) [Decidable P] (x : String) :
    (if P then [x] else []) ≠ [] ↔ P := by
  by_cases h : P
  · simp [h]
  · simp [h]

lemma four_append_ne_nil (a b c d : List String) :
    a ++ b ++ c ++ d ≠ [] ↔ (a ≠ [] ∨ b ≠ [] ∨ c ≠ [] ∨ d ≠ []) := by
  rw [Ne, List.append_eq_nil, List.append_eq_nil, List.append_eq_nil]
  tauto

/-- Claim C6: `compareAgainstBaseline` returns a non-empty `regressions`
list iff the current overall score strictly dropped, total issues strictly
rose, high-severity findings strictly rose, or some category present in
both report and baseline has a strictly higher score than its baseline
entry; and the returned deltas are the exact differences. -/
theorem compareAgainstBaseline_spec (report : Report) (snapshot : BaselineSnapshot) :
    ((compareAgainstBaseline report snapshot).regressions ≠ [] ↔
      (report.overallScore < snapshot.overallScore ∨
       snapshot.totalIssues < report.totalIssues ∨
       snapshot.findingCounts.high < ((countFindingsBySeverity report.categories).high : ℤ) ∨
       ∃ c ∈ report.categories, ∃ prev,
         snapshot.categories c.id = some prev ∧ prev.score < c.score)) ∧
    (compareAgainstBaseline report snapshot).deltas =
      ⟨report.overallScore - snapshot.overallScore,
       report.totalIssues - snapshot.totalIssues,
       ((countFindingsBySeverity report.categories).high : ℤ) - snapshot.findingCounts.high,
       ((countFindingsBySeverity report.categories).medium : ℤ) -
         snapshot.findingCounts.medium⟩ := by
  constructor
  · simp only [compareAgainstBaseline]
    rw [four_append_ne_nil, ite_singleton_ne_nil, ite_singleton_ne_nil,
      ite_singleton_ne_nil, ite_singleton_ne_nil, List.length_pos,
      worsened_ne_nil_iff]
    exact or_congr (by omega) (or_congr (by omega) (or_congr (by omega) Iff.rfl))
  · rfl

/-! ### Naming classifier (`src/analyzers/naming.js`) -/

/-- Character class `[a-z]`. -/
def isLowerAlpha (c : Char) : Bool := 'a' ≤ c && c ≤ 'z'

/-- Character class `[A-Z]`. -/
def isUpperAlpha (c : Char) : Bool := 'A' ≤ c && c ≤ 'Z'

/-- Character class `[0-9]`. -/
def isDigitChar (c : Char) : Bool := '0' ≤ c && c ≤ '9'

/-- Character class `[a-zA-Z0-9]`. -/
def isAlphaNumChar (c : Char) : Bool := isLowerAlpha c || isUpperAlpha c || isDigitChar c

/-- Acceptor for the `camelCase` pattern `^[a-z][a-zA-Z0-9]*$`. -/
def isCamelCase (s : String) : Bool :=
  match s.data with
  | [] => false
  | c :: rest => isLowerAlpha c && rest.all isAlphaNumChar

/-- Character class `[a-z0-9]`. -/
def isSnakeLowerChar (c : Char) : Bool := isLowerAlpha c || isDigitChar c

/-- Acceptor for the tail `[a-z0-9]*(?:_[a-z0-9]+)+$` of the `snake_case`
pattern; the boolean records whether an underscore group has been seen. -/
def snakeTail : List Char → Bool → Bool
  | [], seen => seen
  | '_' :: [], _ => false
  | '_' :: d :: rest, _ => isSnakeLowerChar d && snakeTail rest true
  | c :: rest, seen => isSnakeLowerChar c && snakeTail rest seen

/-- Acceptor for the `snake_case` pattern
`^[a-z][a-z0-9]*(?:_[a-z0-9]+)+$` (at least one underscore group). -/
def isSnakeCase (s : String) : Bool :=
  match s.data with
  | [] => false
  | c :: rest => isLowerAlpha c && snakeTail rest false

/-- Acceptor for the `PascalCase` pattern `^[A-Z][a-zA-Z0-9]*$`. -/
def isPascalCase (s : String) : Bool :=
  match s.data with
  | [] => false
  | c :: rest => isUpperAlpha c && rest.all isAlphaNumChar

/-- Character class `[A-Z0-9]`. -/
def isScreamChar (c : Char) : Bool := isUpperAlpha c || isDigitChar c

/-- Acceptor for the tail `[A-Z0-9]*(?:_[A-Z0-9]+)*$` of the
`SCREAMING_SNAKE` pattern (underscore groups optional). -/
def screamTail : List Char → Bool
  | [] => true
  | '_' :: [] => false
  | '_' :: d :: rest => isScreamChar d && screamTail rest
  | c :: rest => isScreamChar c && screamTail rest

/-- Acceptor for the `SCREAMING_SNAKE` pattern
`^[A-Z][A-Z0-9]*(?:_[A-Z0-9]+)*$`. -/
def isScreamingSnake (s : String) : Bool :=
  match s.data with
  | [] => false
  | c :: rest => isUpperAlpha c && screamTail rest

/-- The `IDENTIFIER_STYLES` table in its `Object.entries` insertion order. -/
def IDENTIFIER_STYLES : List (String × (String → Bool)) :=
  [("camelCase", isCamelCase), ("snake_case", isSnakeCase),
   ("PascalCase", isPascalCase), ("SCREAMING_SNAKE", isScreamingSnake)]

/-- Embedding of `styleOf` from `src/analyzers/naming.js`: first entry of
the style table whose pattern matches, or `null`. -/
def styleOf (value : String) (map : List (String × (String → Bool))) : Option String :=
  (map.find? (fun p => p.2 value)).map (fun p => p.1)

/-- The per-style identifier tallies accumulated by `analyzeNaming`. -/
structure StyleCounts where
  camelCase : ℕ
  snake_case : ℕ
  PascalCase : ℕ
  SCREAMING_SNAKE : ℕ
  deriving DecidableEq, Repr

/-- The all-zero tally. -/
def zeroCounts : StyleCounts := ⟨0, 0, 0, 0⟩

/-- `identifierCounts[style] += 1` for a matched style name. -/
def bumpStyle (c : StyleCounts) (style : String) : StyleCounts :=
  if style = "camelCase" then { c with camelCase := c.camelCase + 1 }
  else if style = "snake_case" then { c with snake_case := c.snake_case + 1 }
  else if style = "PascalCase" then { c with PascalCase := c.PascalCase + 1 }
  else if style = "SCREAMING_SNAKE" then { c with SCREAMING_SNAKE := c.SCREAMING_SNAKE + 1 }
  else c

/-- The body of the identifier loop of `analyzeNaming`: unclassified
identifiers (`styleOf` is `null`) are skipped (`continue`), matched ones
bump their style's counter. -/
def tallyIdentifier (c : StyleCounts) (ident : String) : StyleCounts :=
  match styleOf ident IDENTIFIER_STYLES with
  | none => c
  | some st => bumpStyle c st

/-- The identifier tallies contributed by a single file; `collect` stands
for `collectIdentifiers` (tree walk or regex fallback, performed by the
external parser) applied to the file's content. -/
def fileStyleCounts (collect : String → List String) (f : SourceFile) : StyleCounts :=
  (collect f.content).foldl tallyIdentifier zeroCounts

/-- Embedding of the tally accumulation of `analyzeNaming` over the ordered
file list. -/
def identifierCounts (collect : String → List String) (files : List SourceFile) :
    StyleCounts :=
  files.foldl (fun acc f => (collect f.content).foldl tallyIdentifier acc) zeroCounts

/-- Pointwise sum of two tallies. -/
def addCounts (a b : StyleCounts) : StyleCounts :=
  ⟨a.camelCase + b.camelCase, a.snake_case + b.snake_case,
   a.PascalCase + b.PascalCase, a.SCREAMING_SNAKE + b.SCREAMING_SNAKE⟩

/-- The `Object.entries(identifierCounts)` list in insertion order. -/
def entriesOfCounts (c : StyleCounts) : List (String × ℕ) :=
  [("camelCase", c.camelCase), ("snake_case", c.snake_case),
   ("PascalCase", c.PascalCase), ("SCREAMING_SNAKE", c.SCREAMING_SNAKE)]

/-- Insertion step of a stable descending sort on counts. -/
def insertByCountDesc (x : String × ℕ) : List (String × ℕ) → List (String × ℕ)
  | [] => [x]
  | y :: ys => if x.2 < y.2 then y :: insertByCountDesc x ys else x :: y :: ys

/-- Model of `entries.sort((a, b) => b[1] - a[1])`: JS `Array.prototype.sort`
is stable, so any stable descending sort produces the same list; stable
insertion sort is used here. -/
def sortByCountDesc (l : List (String × ℕ)) : List (String × ℕ) :=
  l.foldr insertByCountDesc []

/-- The result object of `dominantFromCounts`. -/
structure DominantInfo where
  name : Option String
  total : ℕ
  ratio : ℚ
  entries : List (String × ℕ)
  deriving DecidableEq, Repr

/-- Embedding of `dominantFromCounts` from `src/analyzers/naming.js`:
zero total yields no dominant style, otherwise the descending stable sort's
head is the dominant entry. -/
def dominantFromCounts (c : StyleCounts) : DominantInfo :=
  let entries := entriesOfCounts c
  let total := (entries.map (fun p => p.2)).sum
  if total = 0 then ⟨none, 0, 0, []⟩
  else
    match sortByCountDesc entries with
    | [] => ⟨none, 0, 0, []⟩
    | (n, cnt) :: rest => ⟨some n, total, (cnt : ℚ) / (total : ℚ), (n, cnt) :: rest⟩

/-- Claim C8 fails on mutual exclusivity: `FOO` (all-caps, no underscore)
matches both the `PascalCase` and the `SCREAMING_SNAKE` patterns; the
priority order classifies it as `PascalCase`. -/
theorem identifierStyles_not_exclusive_counterexample :
    isPascalCase "FOO" = true ∧ isScreamingSnake "FOO" = true ∧
    styleOf "FOO" IDENTIFIER_STYLES = some "PascalCase" := by
  refine ⟨by decide, by decide, by decide⟩

/-- Claim C8 as amended: `styleOf` tests the four patterns in the fixed
priority order camelCase, snake_case, PascalCase, SCREAMING_SNAKE with
first match winning, and identifiers matching no pattern are skipped by the
tally loop — but the patterns are not mutually exclusive (see the
counterexample: PascalCase and SCREAMING_SNAKE overlap). -/
theorem styleOf_priority (v : String) :
    (styleOf v IDENTIFIER_STYLES = none ↔
      isCamelCase v = false ∧ isSnakeCase v = false ∧ isPascalCase v = false ∧
        isScreamingSnake v = false) ∧
    (styleOf v IDENTIFIER_STYLES = some "camelCase" ↔ isCamelCase v = true) ∧
    (styleOf v IDENTIFIER_STYLES = some "snake_case" ↔
      isCamelCase v = false ∧ isSnakeCase v = true) ∧
    (styleOf v IDENTIFIER_STYLES = some "PascalCase" ↔
      isCamelCase v = false ∧ isSnakeCase v = false ∧ isPascalCase v = true) ∧
    (styleOf v IDENTIFIER_STYLES = some "SCREAMING_SNAKE" ↔
      isCamelCase v = false ∧ isSnakeCase v = false ∧ isPascalCase v = false ∧
        isScreamingSnake v = true) ∧
    (∀ c : StyleCounts, styleOf v IDENTIFIER_STYLES = none → tallyIdentifier c v = c) := by
  rcases h1 : isCamelCase v <;> rcases h2 : isSnakeCase v <;>
    rcases h3 : isPascalCase v <;> rcases h4 : isScreamingSnake v <;>
    simp [styleOf, IDENTIFIER_STYLES, List.find?, h1, h2, h3, h4, tallyIdentifier]

lemma bumpStyle_addCounts (a b : StyleCounts) (st : String) :
    bumpStyle (addCounts a b) st = addCounts a (bumpStyle b st) := by
  rw [bumpStyle, bumpStyle]
  split_ifs <;> simp [addCounts] <;> omega

lemma addCounts_zero (a : StyleCounts) : addCounts a zeroCounts = a := by
  cases a
  simp [addCounts, zeroCounts]

lemma zero_addCounts (a : StyleCounts) : addCounts zeroCounts a = a := by
  cases a
  simp [addCounts, zeroCounts]

lemma addCounts_assoc (a b c : StyleCounts) :
    addCounts (addCounts a b) c = addCounts a (addCounts b c) := by
  simp [addCounts]
  omega

lemma tallyIdentifier_addCounts (a b : StyleCounts) (v : String) :
    tallyIdentifier (addCounts a b) v = addCounts a (tallyIdentifier b v) := by
  rw [tallyIdentifier, tallyIdentifier]
  rcases styleOf v IDENTIFIER_STYLES with _ | st
  · rfl
  · exact bumpStyle_addCounts a b st

lemma foldl_tally_shift (ids : List String) :
    ∀ acc : StyleCounts,
      ids.foldl tallyIdentifier acc =
        addCounts acc (ids.foldl tallyIdentifier zeroCounts) := by
  induction ids with
  | nil => intro acc; exact (addCounts_zero acc).symm
  | cons v ids ih =>
    intro acc
    have hstep : tallyIdentifier acc v = addCounts acc (tallyIdentifier zeroCounts v) := by
      conv_lhs => rw [← addCounts_zero acc]
      exact tallyIdentifier_addCounts acc zeroCounts v
    rw [List.foldl_cons, List.foldl_cons, ih (tallyIdentifier acc v),
      ih (tallyIdentifier zeroCounts v), hstep, addCounts_assoc]

lemma foldl_file_shift (collect : String → List String) (fs : List SourceFile) :
    ∀ acc : StyleCounts,
      fs.foldl (fun acc f => (collect f.content).foldl tallyIdentifier acc) acc =
        addCounts acc (identifierCounts collect fs) := by
  induction fs with
  | nil => intro acc; exact (addCounts_zero acc).symm
  | cons f fs ih =>
    intro acc
    rw [identifierCounts, List.foldl_cons, List.foldl_cons, ih, ih,
      foldl_tally_shift (collect f.content) acc, addCounts_assoc]

lemma identifierCounts_cons (collect : String → List String) (f : SourceFile)
    (fs : List SourceFile) :
    identifierCounts collect (f :: fs) =
      addCounts (fileStyleCounts collect f) (identifierCounts collect fs) := by
  rw [identifierCounts, List.foldl_cons, foldl_file_shift, fileStyleCounts,
    foldl_tally_shift, zero_addCounts]

lemma identifierCounts_eq_foldr (collect : String → List String)
    (files : List SourceFile) :
    identifierCounts collect files =
      (files.map (fileStyleCounts collect)).foldr addCounts zeroCounts := by
  induction files with
  | nil => rfl
  | cons f fs ih => rw [identifierCounts_cons, ih, List.map_cons, List.foldr_cons]

lemma styleCounts_eq (a b : StyleCounts)
    (h1 : a.camelCase = b.camelCase) (h2 : a.snake_case = b.snake_case)
    (h3 : a.PascalCase = b.PascalCase) (h4 : a.SCREAMING_SNAKE = b.SCREAMING_SNAKE) :
    a = b := by
  cases a
  cases b
  simp_all

lemma foldr_addCounts_camel (l : List StyleCounts) :
    ((l.foldr addCounts zeroCounts)).camelCase = (l.map (fun c => c.camelCase)).sum := by
  induction l with
  | nil => rfl
  | cons c cs ih => simp [addCounts, ih]

lemma foldr_addCounts_snake (l : List StyleCounts) :
    ((l.foldr addCounts zeroCounts)).snake_case =
      (l.map (fun c => c.snake_case)).sum := by
  induction l with
  | nil => rfl
  | cons c cs ih => simp [addCounts, ih]

lemma foldr_addCounts_pascal (l : List StyleCounts) :
    ((l.foldr addCounts zeroCounts)).PascalCase =
      (l.map (fun c => c.PascalCase)).sum := by
  induction l with
  | nil => rfl
  | cons c cs ih => simp [addCounts, ih]

lemma foldr_addCounts_scream (l : List StyleCounts) :
    ((l.foldr addCounts zeroCounts)).SCREAMING_SNAKE =
      (l.map (fun c => c.SCREAMING_SNAKE)).sum := by
  induction l with
  | nil => rfl
  | cons c cs ih => simp [addCounts, ih]

lemma identifierCounts_perm (collect : String → List String)
    (l₁ l₂ : List SourceFile) (h : l₁.Perm l₂) :
    identifierCounts collect l₁ = identifierCounts collect l₂ := by
  rw [identifierCounts_eq_foldr, identifierCounts_eq_foldr]
  have hm : (l₁.map (fileStyleCounts collect)).Perm (l₂.map (fileStyleCounts collect)) :=
    h.map _
  apply styleCounts_eq
  · rw [foldr_addCounts_camel, foldr_addCounts_camel]
    exact (hm.map _).sum_eq
  · rw [foldr_addCounts_snake, foldr_addCounts_snake]
    exact (hm.map _).sum_eq
  · rw [foldr_addCounts_pascal, foldr_addCounts_pascal]
    exact (hm.map _).sum_eq
  · rw [foldr_addCounts_scream, foldr_addCounts_scream]
    exact (hm.map _).sum_eq

/-- Claim C9: the reported dominant identifier style is invariant under
permutation of the input file list — the per-style counts are
permutation-invariant sums, and ties are broken by the fixed
`Object.entries` key order, not by file order. -/
theorem dominantStyle_perm_invariant (collect : String → List String)
    (l₁ l₂ : List SourceFile) (h : l₁.Perm l₂) :
    (dominantFromCounts (identifierCounts collect l₁)).name =
      (dominantFromCounts (identifierCounts collect l₂)).name := by
  rw [identifierCounts_perm collect l₁ l₂ h]

/-- Second sample scanned file (snake_case identifiers). -/
def fileB : SourceFile := ⟨"b.js", "my_var", ".js"⟩

/-- Third sample scanned file (camelCase identifiers). -/
def fileC : SourceFile := ⟨"c.js", "myVar", ".js"⟩

/-- Witness for `dominantStyle_perm_invariant`: swapping two concrete files
leaves the dominant style unchanged. -/
theorem dominantStyle_perm_invariant_witness :
    ([fileB, fileC] : List SourceFile).Perm [fileC, fileB] ∧
    (dominantFromCounts (identifierCounts (fun s => [s]) [fileB, fileC])).name =
      (dominantFromCounts (identifierCounts (fun s => [s]) [fileC, fileB])).name :=
  ⟨List.Perm.swap fileC fileB [],
   dominantStyle_perm_invariant (fun s => [s]) [fileB, fileC] [fileC, fileB]
     (List.Perm.swap fileC fileB [])⟩

/-! ### Control-flow await/catch analyzer (`countAwaitStats` in
`src/analyzers/errorhandling.js`)

The acorn syntax tree is embedded as a tagged variant with the node kinds
the walker inspects (`AwaitExpression`, `TryStatement`, `CallExpression`,
`MemberExpression`, `Identifier`) plus a generic node carrying its children,
matching the walker's "enumerate children by object keys" traversal. -/

mutual

inductive ESNode where
  | awaitExpr (argument : ESNode)
  | tryStmt (block : ESNode) (handler : OptNode) (finalizer : OptNode)
  | callExpr (callee : ESNode) (args : NodeList)
  | memberExpr (object : ESNode) (property : ESNode) (computed : Bool)
  | ident (name : String)
  | other (kind : String) (children : NodeList)

inductive OptNode where
  | none
  | some (n : ESNode)

inductive NodeList where
  | nil
  | cons (head : ESNode) (tail : NodeList)

end

/-- The `property.type === "Identifier" && property.name === "catch"` test
of `hasCatchChain`. -/
def isCatchProperty : ESNode → Bool
  | .ident n => n = "catch"
  | _ => false

/-- Embedding of `hasCatchChain` from `countAwaitStats`: a call whose callee
is a non-computed member access named `catch` is a catch link; otherwise a
call through a member expression recurses leftward into the member's
object; anything else has no catch chain. -/
def hasCatchChain : ESNode → Bool
  | .callExpr (.memberExpr obj prop computed) _ =>
    (!computed && isCatchProperty prop) || hasCatchChain obj
  | _ => false

/-- Componentwise sum of `(totalAwait, unhandledAwait)` counter pairs. -/
def addPair (a b : ℕ × ℕ) : ℕ × ℕ := (a.1 + b.1, a.2 + b.2)

mutual

/-- Embedding of `visit` from `countAwaitStats`: an await expression bumps
`totalAwait` and, when outside a try block with no catch chain on its
argument, `unhandledAwait`, then its argument is traversed; a try statement
visits its block with context `true` and its handler/finalizer with context
`false`; every other node forwards the context to its children. -/
def visitNode : ESNode → Bool → ℕ × ℕ
  | .awaitExpr arg, inTry =>
    addPair (1, if !inTry && !hasCatchChain arg then 1 else 0) (visitNode arg inTry)
  | .tryStmt b h f, _ =>
    addPair (visitNode b true) (addPair (visitOpt h) (visitOpt f))
  | .callExpr c args, inTry => addPair (visitNode c inTry) (visitList args inTry)
  | .memberExpr o p _, inTry => addPair (visitNode o inTry) (visitNode p inTry)
  | .ident _, _ => (0, 0)
  | .other _ cs, inTry => visitList cs inTry

/-- Visit of an optional child (try handler/finalizer), context `false`. -/
def visitOpt : OptNode → ℕ × ℕ
  | .none => (0, 0)
  | .some n => visitNode n false

/-- Visit of a child list, forwarding the context. -/
def visitList : NodeList → Bool → ℕ × ℕ
  | .nil, _ => (0, 0)
  | .cons x xs, b => addPair (visitNode x b) (visitList xs b)

end

mutual

/-- Structural count of await expressions reachable by the walker. -/
def awaitCountN : ESNode → ℕ
  | .awaitExpr arg => 1 + awaitCountN arg
  | .tryStmt b h f => awaitCountN b + awaitCountOpt h + awaitCountOpt f
  | .callExpr c args => awaitCountN c + awaitCountL args
  | .memberExpr o p _ => awaitCountN o + awaitCountN p
  | .ident _ => 0
  | .other _ cs => awaitCountL cs

/-- Await count of an optional child. -/
def awaitCountOpt : OptNode → ℕ
  | .none => 0
  | .some n => awaitCountN n

/-- Await count of a child list. -/
def awaitCountL : NodeList → ℕ
  | .nil => 0
  | .cons x xs => awaitCountN x + awaitCountL xs

end

mutual

/-- The hypothesis of the claim, relative to the walker's lexical context:
every await expression is inside the main block of a try statement (catch
handlers and finalizers do not count) or carries a `.catch` link somewhere
in its awaited call chain. -/
def allAwaitsHandledN : ESNode → Bool → Bool
  | .awaitExpr arg, inTry => (inTry || hasCatchChain arg) && allAwaitsHandledN arg inTry
  | .tryStmt b h f, _ =>
    allAwaitsHandledN b true && allAwaitsHandledOpt h && allAwaitsHandledOpt f
  | .callExpr c args, t => allAwaitsHandledN c t && allAwaitsHandledL args t
  | .memberExpr o p _, t => allAwaitsHandledN o t && allAwaitsHandledN p t
  | .ident _, _ => true
  | .other _ cs, t => allAwaitsHandledL cs t

/-- Handledness of an optional child (context `false`, as in the walker). -/
def allAwaitsHandledOpt : OptNode → Bool
  | .none => true
  | .some n => allAwaitsHandledN n false

/-- Handledness of a child list. -/
def allAwaitsHandledL : NodeList → Bool → Bool
  | .nil, _ => true
  | .cons x xs, t => allAwaitsHandledN x t && allAwaitsHandledL xs t

end

/-- Embedding of `countAwaitStats`: with no tree the fallback is a flat
regex count of `await` occurrences (performed by the external regex engine,
passed here as `fallbackAwaitCount`) with `unhandledAwait = 0`; with a tree
the recursive walker runs from context `false`. -/
def countAwaitStats (tree : Option ESNode) (fallbackAwaitCount : ℕ) : ℕ × ℕ :=
  match tree with
  | Option.none => (fallbackAwaitCount, 0)
  | Option.some ast => visitNode ast false

mutual

theorem visitNode_fst (n : ESNode) (b : Bool) : (visitNode n b).1 = awaitCountN n := by
  cases n with
  | awaitExpr arg =>
    simp [visitNode, awaitCountN, addPair, visitNode_fst arg b]
  | tryStmt blk h f =>
    simp [visitNode, awaitCountN, addPair, visitNode_fst blk true,
      visitOpt_fst h, visitOpt_fst f]
    omega
  | callExpr c args =>
    simp [visitNode, awaitCountN, addPair, visitNode_fst c b, visitList_fst args b]
  | memberExpr o p computed =>
    simp [visitNode, awaitCountN, addPair, visitNode_fst o b, visitNode_fst p b]
  | ident name => rfl
  | other kind cs =>
    simp [visitNode, awaitCountN, visitList_fst cs b]

theorem visitOpt_fst (o : OptNode) : (visitOpt o).1 = awaitCountOpt o := by
  cases o with
  | none => rfl
  | some n => simp [visitOpt, awaitCountOpt, visitNode_fst n false]

theorem visitList_fst (l : NodeList) (b : Bool) : (visitList l b).1 = awaitCountL l := by
  cases l with
  | nil => rfl
  | cons x xs =>
    simp [visitList, awaitCountL, addPair, visitNode_fst x b, visitList_fst xs b]

end

mutual

theorem visitNode_snd (n : ESNode) (b : Bool) (h : allAwaitsHandledN n b = true) :
    (visitNode n b).2 = 0 := by
  cases n with
  | awaitExpr arg =>
    rw [allAwaitsHandledN, Bool.and_eq_true] at h
    have hcc : (!b && !hasCatchChain arg) = false := by
      rcases Bool.or_eq_true _ _ |>.mp h.1 with hb | hb
      · rw [hb]
        rfl
      · rw [hb]
        simp
    simp [visitNode, addPair, hcc, visitNode_snd arg b h.2]
  | tryStmt blk hd f =>
    rw [allAwaitsHandledN, Bool.and_eq_true, Bool.and_eq_true] at h
    simp [visitNode, addPair, visitNode_snd blk true h.1.1,
      visitOpt_snd hd h.1.2, visitOpt_snd f h.2]
  | callExpr c args =>
    rw [allAwaitsHandledN, Bool.and_eq_true] at h
    simp [visitNode, addPair, visitNode_snd c b h.1, visitList_snd args b h.2]
  | memberExpr o p computed =>
    rw [allAwaitsHandledN, Bool.and_eq_true] at h
    simp [visitNode, addPair, visitNode_snd o b h.1, visitNode_snd p b h.2]
  | ident name => rfl
  | other kind cs =>
    rw [allAwaitsHandledN] at h
    simp [visitNode, visitList_snd cs b h]

theorem visitOpt_snd (o : OptNode) (h : allAwaitsHandledOpt o = true) :
    (visitOpt o).2 = 0 := by
  cases o with
  | none => rfl
  | some n =>
    rw [allAwaitsHandledOpt] at h
    simp [visitOpt, visitNode_snd n false h]

theorem visitList_snd (l : NodeList) (b : Bool) (h : allAwaitsHandledL l b = true) :
    (visitList l b).2 = 0 := by
  cases l with
  | nil => rfl
  | cons x xs =>
    rw [allAwaitsHandledL, Bool.and_eq_true] at h
    simp [visitList, addPair, visitNode_snd x b h.1, visitList_snd xs b h.2]

end

/-- Claim C3: for a file whose text parses to a tree, if every await
expression is lexically inside the main block of a try statement (catch and
finally bodies do not count) or awaits an expression whose member/call
chain contains a `.catch` call at some link, then `countAwaitStats` reports
`unhandledAwait = 0`, and `totalAwait` counts every await expression. -/
theorem countAwaitStats_handled (ast : ESNode) (fb : ℕ)
    (h : allAwaitsHandledN ast false = true) :
    countAwaitStats (Option.some ast) fb = (awaitCountN ast, 0) := by
  rw [countAwaitStats]
  refine Prod.ext ?_ ?_
  · exact visitNode_fst ast false
  · exact visitNode_snd ast false h

/-- Sample tree: `try { await fetch() } catch {}` followed by
`await a().catch().then()` (the catch link is an inner link of the chain). -/
def sampleAst : ESNode :=
  .other "Program" (.cons
    (.tryStmt (.other "BlockStatement"
        (.cons (.awaitExpr (.callExpr (.ident "fetch") .nil)) .nil))
      (.some (.other "CatchClause" .nil)) .none)
    (.cons
      (.awaitExpr (.callExpr
        (.memberExpr
          (.callExpr
            (.memberExpr (.callExpr (.ident "a") .nil) (.ident "catch") false)
            .nil)
          (.ident "then") false)
        .nil))
      .nil))

/-- Witness for `countAwaitStats_handled`: both awaits of `sampleAst` are
handled, and the analyzer reports `(totalAwait, unhandledAwait) = (2, 0)`. -/
theorem countAwaitStats_handled_witness :
    allAwaitsHandledN sampleAst false = true ∧
    countAwaitStats (Option.some sampleAst) 0 = (2, 0) :=
  ⟨by rfl, by
    rw [countAwaitStats_handled sampleAst 0 (by rfl)]
    rfl⟩

/-! ### Syntax resolver (`parseAstWithMeta` in `src/analyzers/utils.js`)

The acorn parser and the regex substitutions of `stripTypeOnlySyntax` are
external library behaviour; they enter the embedding as function parameters
(`parse`, which may fail with an error value — the `try`/`catch` of
`tryParse` turns that failure into data — and `strip`).  The verified
property is the resolver's tier structure, which holds for every `parse`
and `strip`. -/

/-- The acorn `sourceType` option. -/
inductive SourceType where
  | module
  | script
  deriving DecidableEq, Repr

/-- The `{ast, error}` result of `tryParse`. -/
structure TryResult (α ε : Type) where
  ast : Option α
  error : Option ε
  deriving DecidableEq, Repr

/-- Embedding of `tryParse`: a throwing parse (`Except.error`) is caught and
returned as `{ast: null, error}`; success returns `{ast, error: null}`.
By construction the function is total: it never propagates an exception. -/
def tryParse {α ε : Type} (parse : String → SourceType → Except ε α)
    (content : String) (sourceType : SourceType) : TryResult α ε :=
  match parse content sourceType with
  | .ok a => ⟨Option.some a, Option.none⟩
  | .error e => ⟨Option.none, Option.some e⟩

/-- The `{ast, parseError, usedTypeSyntaxFallback}` result of
`parseAstWithMeta`. -/
structure AstMeta (α ε : Type) where
  ast : Option α
  parseError : Option ε
  usedTypeSyntaxFallback : Bool
  deriving DecidableEq, Repr

/-- Embedding of `parseAstWithMeta`: module parse, then script parse, then —
only when stripping type-only syntax changed the text — module and script
parses of the stripped text flagged as fallback; when everything fails the
result is a null tree with `usedTypeSyntaxFallback: false` and the first
recorded error. -/
def parseAstWithMeta {α ε : Type} (parse : String → SourceType → Except ε α)
    (strip : String → String) (content : String) : AstMeta α ε :=
  let moduleResult := tryParse parse content .module
  match moduleResult.ast with
  | Option.some a => ⟨Option.some a, Option.none, false⟩
  | Option.none =>
    let scriptResult := tryParse parse content .script
    match scriptResult.ast with
    | Option.some a => ⟨Option.some a, Option.none, false⟩
    | Option.none =>
      let stripped := strip content
      if stripped ≠ content then
        let moduleStripped := tryParse parse stripped .module
        match moduleStripped.ast with
        | Option.some a => ⟨Option.some a, moduleResult.error, true⟩
        | Option.none =>
          let scriptStripped := tryParse parse stripped .script
          match scriptStripped.ast with
          | Option.some a => ⟨Option.some a, moduleResult.error, true⟩
          | Option.none =>
            ⟨Option.none, moduleResult.error <|> scriptResult.error, false⟩
      else ⟨Option.none, moduleResult.error <|> scriptResult.error, false⟩

/-- Claim C4: the resolver is total (its embedding returns a value for every
`parse` oracle, including one that always throws) and follows the tiered
first-success-wins order — module, script, stripped module, stripped script
(the last two with `usedFallback = true`) — returning a null tree with
`usedFallback = false` when all four attempts fail.  The `stripped ≠
content` short-circuit in the source is unobservable because a parser run
twice on the same text gives the same result. -/
theorem parseAstWithMeta_tiered {α ε : Type}
    (parse : String → SourceType → Except ε α) (strip : String → String)
    (content : String) :
    (∀ a, parse content .module = .ok a →
      parseAstWithMeta parse strip content = ⟨Option.some a, Option.none, false⟩) ∧
    (∀ e a, parse content .module = .error e → parse content .script = .ok a →
      parseAstWithMeta parse strip content = ⟨Option.some a, Option.none, false⟩) ∧
    (∀ e eh a, parse content .module = .error e → parse content .script = .error eh →
      parse (strip content) .module = .ok a →
      parseAstWithMeta parse strip content = ⟨Option.some a, Option.some e, true⟩) ∧
    (∀ e eh em a, parse content .module = .error e →
      parse content .script = .error eh →
      parse (strip content) .module = .error em →
      parse (strip content) .script = .ok a →
      parseAstWithMeta parse strip content = ⟨Option.some a, Option.some e, true⟩) ∧
    (∀ e eh em es, parse content .module = .error e →
      parse content .script = .error eh →
      parse (strip content) .module = .error em →
      parse (strip content) .script = .error es →
      parseAstWithMeta parse strip content = ⟨Option.none, Option.some e, false⟩) := by
  refine ⟨?_, ?_, ?_, ?_, ?_⟩
  · intro a ha
    simp [parseAstWithMeta, tryParse, ha]
  · intro e a hm hs
    simp [parseAstWithMeta, tryParse, hm, hs]
  · intro e eh a hm hs hsm
    by_cases hst : strip content = content
    · rw [hst, hm] at hsm
      exact absurd hsm (by simp)
    · simp [parseAstWithMeta, tryParse, hm, hs, hsm, hst]
  · intro e eh em a hm hs hsm hss
    by_cases hst : strip content = content
    · rw [hst, hs] at hss
      exact absurd hss (by simp)
    · simp [parseAstWithMeta, tryParse, hm, hs, hsm, hss, hst]
  · intro e eh em es hm hs hsm hss
    by_cases hst : strip content = content
    · simp [parseAstWithMeta, tryParse, hm, hs, hst, Option.orElse]
    · simp [parseAstWithMeta, tryParse, hm, hs, hsm, hss, hst, Option.orElse]

/-- A concrete parse oracle for the witness: only the text `"S"` parses. -/
def parseOracle : String → SourceType → Except Unit Unit :=
  fun s _ => if s = "S" then .ok () else .error ()

/-- A concrete strip function for the witness: stripping yields `"S"`. -/
def stripOracle : String → String := fun _ => "S"

/-- Witness for `parseAstWithMeta_tiered`: for content `"C"` the module and
script parses fail, the stripped module parse succeeds, and the resolver
returns that tree flagged `usedTypeSyntaxFallback = true`. -/
theorem parseAstWithMeta_tiered_witness :
    parseOracle "C" .module = .error () ∧
    parseOracle "C" .script = .error () ∧
    parseOracle (stripOracle "C") .module = .ok () ∧
    parseAstWithMeta parseOracle stripOracle "C" =
      ⟨Option.some (), Option.some (), true⟩ :=
  ⟨by rfl, by rfl, by rfl,
    (parseAstWithMeta_tiered parseOracle stripOracle "C").2.2.1 () () ()
      (by rfl) (by rfl) (by rfl)⟩

/-! ### Reference graph of `analyzeDeadCode` (`src/analyzers/deadcode.js`)

Paths are forward-slash relative paths.  `path.dirname`, `path.join` and
`path.normalize` are modelled on segment lists (POSIX semantics for the
relative paths the scanner produces).  The three import-extraction regexes
of `extractRelativeImports` run in the JS regex engine; the extraction
enters the embedding as the function parameter `extract`, because the
verified graph properties hold for every extraction result. -/

/-- The `EXTENSIONS` resolution priority list of `deadcode.js`. -/
def EXTENSIONS : List String :=
  [".js", ".jsx", ".ts", ".tsx", ".mjs", ".cjs", ".vue", ".svelte"]

/-- Split a path into `/`-separated segments (the segment view of
`p.split("/")`). -/
def splitSegsAux (cur : List Char) : List Char → List (List Char)
  | [] => [cur.reverse]
  | '/' :: rest => cur.reverse :: splitSegsAux [] rest
  | c :: rest => splitSegsAux (c :: cur) rest

/-- Segment list of a path string. -/
def splitPath (p : String) : List String :=
  (splitSegsAux [] p.data).map (fun l => ⟨l⟩)

/-- Render a normalized segment list (`.` for the empty list, as
`path.normalize` does for an empty relative result). -/
def renderParts : List String → String
  | [] => "."
  | p :: ps => ps.foldl (fun acc q => acc ++ "/" ++ q) p

/-- Resolve `.`/`..`/empty segments, the segment semantics of
`path.normalize` on relative paths. -/
def normalizeParts (parts : List String) : List String :=
  parts.foldl (fun acc seg =>
    if seg = "" ∨ seg = "." then acc
    else if seg = ".." then
      match acc.getLast? with
      | Option.some lastSeg => if lastSeg = ".." then acc ++ [".."] else acc.dropLast
      | Option.none => [".."]
    else acc ++ [seg]) []

/-- Model of `path.normalize(path.join(a, b))` (`path.join` itself
normalizes, so the outer `normalize` in the source is the identity on its
result). -/
def joinPath (a b : String) : String :=
  renderParts (normalizeParts (splitPath a ++ splitPath b))

/-- Model of `path.dirname` for forward-slash relative paths. -/
def dirname (p : String) : String :=
  let parts := splitPath p
  if parts.length ≤ 1 then "." else renderParts parts.dropLast

/-- Embedding of `resolveRelativeImport` from `deadcode.js`: exact
normalized path first, then each recognized extension appended in priority
order, then `index.<ext>` under the path as a directory; unresolved
specifiers yield `null`. -/
def resolveRelativeImport (fromFile specifier : String)
    (existingFiles : List String) : Option String :=
  let baseDir := dirname fromFile
  let direct := joinPath baseDir specifier
  if direct ∈ existingFiles then Option.some direct
  else
    match EXTENSIONS.find? (fun ext => decide ((direct ++ ext) ∈ existingFiles)) with
    | Option.some ext => Option.some (direct ++ ext)
    | Option.none =>
      match EXTENSIONS.find?
          (fun ext => decide (joinPath direct ("index" ++ ext) ∈ existingFiles)) with
      | Option.some ext => Option.some (joinPath direct ("index" ++ ext))
      | Option.none => Option.none

/-- Model of `s.startsWith(".")`. -/
def startsWithDot (s : String) : Bool :=
  match s.data with
  | [] => false
  | c :: _ => c = '.'

/-- Embedding of the `.filter((item) => item.startsWith("."))` step of
`extractRelativeImports`; the regex-driven specifier harvesting is the
`extract` parameter. -/
def extractRelativeImports (extract : String → List String) (content : String) :
    List String :=
  (extract content).filter startsWithDot

/-- The `incomingRefs` map of `analyzeDeadCode`: keys are scanned files,
values their incoming-reference sets (importer paths, insertion order,
deduplicated as a JS `Set`). -/
def RefMap : Type := String → Option (List String)

/-- The initialization loop `for (file of files) incomingRefs.set(path, new
Set())`. -/
def refMapInit (files : List SourceFile) : RefMap :=
  files.foldl
    (fun m f => fun k => if k = f.relativePath then Option.some [] else m k)
    (fun _ => Option.none)

/-- `incomingRefs.get(target).add(importer)` (a JS `Set` add: no duplicate
entries, insertion order kept). -/
def addIncomingRef (m : RefMap) (target importer : String) : RefMap :=
  fun k =>
    if k = target then
      (m k).map (fun refs => if importer ∈ refs then refs else refs ++ [importer])
    else m k

/-- The body of the specifier loop of `analyzeDeadCode`: unresolved
specifiers and targets absent from the map (`!incomingRefs.has(resolved)`)
are skipped; otherwise the importer is added to the target's set. -/
def applySpecifier (existing : List String) (importer : String) (m : RefMap)
    (specifier : String) : RefMap :=
  match resolveRelativeImport importer specifier existing with
  | Option.none => m
  | Option.some resolved =>
    if (m resolved).isSome then addIncomingRef m resolved importer else m

/-- One file's contribution to the incoming-reference map. -/
def recordFileRefs (extract : String → List String) (existing : List String)
    (m : RefMap) (file : SourceFile) : RefMap :=
  (extractRelativeImports extract file.content).foldl
    (applySpecifier existing file.relativePath) m

/-- The incoming-reference map built by `analyzeDeadCode` over the ordered
file list. -/
def incomingRefs (extract : String → List String) (files : List SourceFile) : RefMap :=
  files.foldl (recordFileRefs extract (files.map (fun f => f.relativePath)))
    (refMapInit files)

/-- The incoming-reference set of a file (empty when absent). -/
def getRefs (m : RefMap) (k : String) : List String := (m k).getD []

lemma resolveRelativeImport_mem (fromFile specifier : String)
    (existingFiles : List String) (r : String)
    (h : resolveRelativeImport fromFile specifier existingFiles = Option.some r) :
    r ∈ existingFiles := by
  rw [resolveRelativeImport] at h
  by_cases hd : joinPath (dirname fromFile) specifier ∈ existingFiles
  · rw [if_pos hd] at h
    cases h
    exact hd
  · rw [if_neg hd] at h
    rcases hf : EXTENSIONS.find?
        (fun ext => decide ((joinPath (dirname fromFile) specifier ++ ext) ∈
          existingFiles)) with _ | ext
    · rw [hf] at h
      rcases hg : EXTENSIONS.find?
          (fun ext => decide (joinPath (joinPath (dirname fromFile) specifier)
            ("index" ++ ext) ∈ existingFiles)) with _ | ext
      · rw [hg] at h
        cases h
      · rw [hg] at h
        cases h
        have := List.find?_some hg
        simpa using this
    · rw [hf] at h
      cases h
      have := List.find?_some hf
      simpa using this

lemma addIncomingRef_isSome (m : RefMap) (t i k : String) :
    ((addIncomingRef m t i) k).isSome = (m k).isSome := by
  simp only [addIncomingRef]
  by_cases hk : k = t
  · simp only [if_pos hk]
    cases m k <;> rfl
  · simp only [if_neg hk]

lemma applySpecifier_isSome (ex : List String) (imp : String) (m : RefMap)
    (s k : String) :
    ((applySpecifier ex imp m s) k).isSome = (m k).isSome := by
  rcases hr : resolveRelativeImport imp s ex with _ | r
  · simp only [applySpecifier, hr]
  · simp only [applySpecifier, hr]
    by_cases hs : (m r).isSome = true
    · simp only [if_pos hs, addIncomingRef_isSome]
    · simp only [if_neg hs]

lemma foldl_applySpecifier_isSome (ex : List String) (imp : String)
    (l : List String) :
    ∀ (m : RefMap) (k : String),
      ((l.foldl (applySpecifier ex imp) m) k).isSome = (m k).isSome := by
  induction l with
  | nil => intro m k; rfl
  | cons s ss ih =>
    intro m k
    rw [List.foldl_cons, ih, applySpecifier_isSome]

lemma recordFileRefs_isSome (extract : String → List String) (ex : List String)
    (m : RefMap) (f : SourceFile) (k : String) :
    ((recordFileRefs extract ex m f) k).isSome = (m k).isSome := by
  rw [recordFileRefs, foldl_applySpecifier_isSome]

lemma foldl_recordFileRefs_isSome (extract : String → List String)
    (ex : List String) (fs : List SourceFile) :
    ∀ (m : RefMap) (k : String),
      ((fs.foldl (recordFileRefs extract ex) m) k).isSome = (m k).isSome := by
  induction fs with
  | nil => intro m k; rfl
  | cons f fs ih =>
    intro m k
    rw [List.foldl_cons, ih, recordFileRefs_isSome]

lemma refMapInit_isSome_aux (files : List SourceFile) :
    ∀ (m : RefMap) (k : String),
      ((files.foldl
        (fun m f => fun k => if k = f.relativePath then Option.some [] else m k)
        m) k).isSome = true ↔
      (k ∈ files.map (fun f => f.relativePath) ∨ (m k).isSome = true) := by
  induction files with
  | nil =>
    intro m k
    simp
  | cons f fs ih =>
    intro m k
    rw [List.foldl_cons, ih]
    by_cases hk : k = f.relativePath
    · simp [hk]
    · simp [hk]

lemma refMapInit_isSome (files : List SourceFile) (k : String) :
    ((refMapInit files) k).isSome = true ↔
      k ∈ files.map (fun f => f.relativePath) := by
  have h := refMapInit_isSome_aux files (fun _ => Option.none) k
  simp only [Option.isSome_none, Bool.false_eq_true, or_false] at h
  exact h

lemma mem_getRefs_addIncomingRef (m : RefMap) (t i k a : String)
    (h : a ∈ getRefs m k) : a ∈ getRefs (addIncomingRef m t i) k := by
  simp only [getRefs, addIncomingRef]
  by_cases hk : k = t
  · simp only [if_pos hk]
    rcases hm : m k with _ | refs
    · simp only [getRefs, hm, Option.getD_none] at h
      cases h
    · simp only [getRefs, hm, Option.getD_some] at h
      simp only [Option.map_some', Option.getD_some]
      by_cases hi : i ∈ refs
      · simp only [if_pos hi]
        exact h
      · simp only [if_neg hi]
        exact List.mem_append_left _ h
  · simp only [if_neg hk]
    exact h

lemma mem_getRefs_addIncomingRef_self (m : RefMap) (t i : String)
    (h : (m t).isSome = true) : i ∈ getRefs (addIncomingRef m t i) t := by
  rcases hm : m t with _ | refs
  · rw [hm] at h
    cases h
  · have heq : addIncomingRef m t i t =
        Option.some (if i ∈ refs then refs else refs ++ [i]) := by
      simp [addIncomingRef, hm]
    simp only [getRefs, heq, Option.getD_some]
    by_cases hi : i ∈ refs
    · simp only [if_pos hi]
      exact hi
    · simp only [if_neg hi]
      exact List.mem_append_right _ (List.mem_singleton.mpr rfl)

lemma mem_getRefs_applySpecifier (ex : List String) (imp : String) (m : RefMap)
    (s k a : String) (h : a ∈ getRefs m k) :
    a ∈ getRefs (applySpecifier ex imp m s) k := by
  rcases hr : resolveRelativeImport imp s ex with _ | r
  · simp only [applySpecifier, hr]
    exact h
  · simp only [applySpecifier, hr]
    by_cases hs : (m r).isSome = true
    · simp only [if_pos hs]
      exact mem_getRefs_addIncomingRef m r imp k a h
    · simp only [if_neg hs]
      exact h

lemma mem_getRefs_foldl_spec (ex : List String) (imp : String) (l : List String) :
    ∀ (m : RefMap) (k a : String), a ∈ getRefs m k →
      a ∈ getRefs (l.foldl (applySpecifier ex imp) m) k := by
  induction l with
  | nil => intro m k a h; exact h
  | cons s ss ih =>
    intro m k a h
    rw [List.foldl_cons]
    exact ih _ k a (mem_getRefs_applySpecifier ex imp m s k a h)

lemma mem_getRefs_recordFileRefs (extract : String → List String)
    (ex : List String) (m : RefMap) (f : SourceFile) (k a : String)
    (h : a ∈ getRefs m k) : a ∈ getRefs (recordFileRefs extract ex m f) k := by
  rw [recordFileRefs]
  exact mem_getRefs_foldl_spec ex f.relativePath _ m k a h

lemma mem_getRefs_foldl_files (extract : String → List String) (ex : List String)
    (fs : List SourceFile) :
    ∀ (m : RefMap) (k a : String), a ∈ getRefs m k →
      a ∈ getRefs (fs.foldl (recordFileRefs extract ex) m) k := by
  induction fs with
  | nil => intro m k a h; exact h
  | cons f fs ih =>
    intro m k a h
    rw [List.foldl_cons]
    exact ih _ k a (mem_getRefs_recordFileRefs extract ex m f k a h)

lemma applySpecifier_adds (ex : List String) (imp : String) (m : RefMap)
    (s r : String) (hres : resolveRelativeImport imp s ex = Option.some r)
    (hdom : (m r).isSome = true) :
    imp ∈ getRefs (applySpecifier ex imp m s) r := by
  have heq : applySpecifier ex imp m s = addIncomingRef m r imp := by
    simp only [applySpecifier, hres, if_pos hdom]
  rw [heq]
  exact mem_getRefs_addIncomingRef_self m r imp hdom

lemma foldl_spec_adds (ex : List String) (imp : String) (l : List String)
    (s r : String) (hs : s ∈ l)
    (hres : resolveRelativeImport imp s ex = Option.some r) :
    ∀ (m : RefMap), (m r).isSome = true →
      imp ∈ getRefs (l.foldl (applySpecifier ex imp) m) r := by
  induction l with
  | nil => cases hs
  | cons s₀ ss ih =>
    intro m hdom
    rw [List.foldl_cons]
    rcases List.mem_cons.mp hs with heq | hmem
    · subst heq
      exact mem_getRefs_foldl_spec ex imp ss _ r imp
        (applySpecifier_adds ex imp m s r hres hdom)
    · exact ih hmem _ (by rw [applySpecifier_isSome]; exact hdom)

lemma foldl_files_adds (extract : String → List String) (ex : List String)
    (fs : List SourceFile) (A : SourceFile) (spec b : String)
    (hA : A ∈ fs)
    (hspec : spec ∈ extractRelativeImports extract A.content)
    (hres : resolveRelativeImport A.relativePath spec ex = Option.some b) :
    ∀ (m : RefMap), (m b).isSome = true →
      A.relativePath ∈ getRefs (fs.foldl (recordFileRefs extract ex) m) b := by
  induction fs with
  | nil => cases hA
  | cons f fs ih =>
    intro m hdom
    rw [List.foldl_cons]
    rcases List.mem_cons.mp hA with heq | hmem
    · subst heq
      refine mem_getRefs_foldl_files extract ex fs _ b A.relativePath ?_
      rw [recordFileRefs]
      exact foldl_spec_adds ex A.relativePath _ spec b hspec hres m hdom
    · exact ih hmem _ (by rw [recordFileRefs_isSome]; exact hdom)

lemma getRefs_refMapInit_aux (files : List SourceFile) :
    ∀ (m : RefMap) (k : String), (m k = Option.none ∨ m k = Option.some []) →
      ((files.foldl
        (fun m f => fun k => if k = f.relativePath then Option.some [] else m k)
        m) k = Option.none ∨
       (files.foldl
        (fun m f => fun k => if k = f.relativePath then Option.some [] else m k)
        m) k = Option.some []) := by
  induction files with
  | nil => intro m k hm; exact hm
  | cons f fs ih =>
    intro m k hm
    rw [List.foldl_cons]
    refine ih _ k ?_
    by_cases hj : k = f.relativePath
    · simp [hj]
    · simp only [hj, if_false]
      exact hm

lemma getRefs_refMapInit (files : List SourceFile) (k : String) :
    getRefs (refMapInit files) k = [] := by
  have h := getRefs_refMapInit_aux files (fun _ => Option.none) k (Or.inl rfl)
  simp only [getRefs]
  rcases h with h1 | h1
  · rw [show (refMapInit files) k = Option.none from h1]
    rfl
  · rw [show (refMapInit files) k = Option.some [] from h1]
    rfl

lemma mem_getRefs_addIncomingRef_bound (m : RefMap) (t i k a : String)
    (h : a ∈ getRefs (addIncomingRef m t i) k) : a ∈ getRefs m k ∨ a = i := by
  by_cases hk : k = t
  · subst hk
    rcases hm : m k with _ | refs
    · have heq : addIncomingRef m k i k = Option.none := by
        simp [addIncomingRef, hm]
      simp only [getRefs, heq, Option.getD_none] at h
      cases h
    · have heq : addIncomingRef m k i k =
          Option.some (if i ∈ refs then refs else refs ++ [i]) := by
        simp [addIncomingRef, hm]
      simp only [getRefs, heq, Option.getD_some] at h
      by_cases hi : i ∈ refs
      · rw [if_pos hi] at h
        exact Or.inl (by simp only [getRefs, hm, Option.getD_some]; exact h)
      · rw [if_neg hi] at h
        rcases List.mem_append.mp h with h1 | h1
        · exact Or.inl (by simp only [getRefs, hm, Option.getD_some]; exact h1)
        · exact Or.inr (List.mem_singleton.mp h1)
  · have heq : addIncomingRef m t i k = m k := by
      simp [addIncomingRef, hk]
    simp only [getRefs, heq] at h
    exact Or.inl h

lemma mem_getRefs_applySpecifier_bound (ex : List String) (imp : String)
    (m : RefMap) (s k a : String)
    (h : a ∈ getRefs (applySpecifier ex imp m s) k) :
    a ∈ getRefs m k ∨ a = imp := by
  rcases hr : resolveRelativeImport imp s ex with _ | r
  · rw [applySpecifier, hr] at h
    exact Or.inl h
  · simp only [applySpecifier, hr] at h
    by_cases hs : (m r).isSome = true
    · rw [if_pos hs] at h
      exact mem_getRefs_addIncomingRef_bound m r imp k a h
    · rw [if_neg hs] at h
      exact Or.inl h

lemma mem_getRefs_foldl_spec_bound (ex : List String) (imp : String)
    (l : List String) :
    ∀ (m : RefMap) (k a : String),
      a ∈ getRefs (l.foldl (applySpecifier ex imp) m) k →
      a ∈ getRefs m k ∨ a = imp := by
  induction l with
  | nil => intro m k a h; exact Or.inl h
  | cons s ss ih =>
    intro m k a h
    rw [List.foldl_cons] at h
    rcases ih _ k a h with h1 | h1
    · exact mem_getRefs_applySpecifier_bound ex imp m s k a h1
    · exact Or.inr h1

lemma mem_getRefs_foldl_files_bound (extract : String → List String)
    (ex : List String) (fs : List SourceFile) :
    ∀ (m : RefMap) (k a : String),
      a ∈ getRefs (fs.foldl (recordFileRefs extract ex) m) k →
      a ∈ getRefs m k ∨ ∃ f ∈ fs, a = f.relativePath := by
  induction fs with
  | nil => intro m k a h; exact Or.inl h
  | cons f fs ih =>
    intro m k a h
    rw [List.foldl_cons] at h
    rcases ih _ k a h with h1 | h1
    · rw [recordFileRefs] at h1
      rcases mem_getRefs_foldl_spec_bound ex f.relativePath _ m k a h1 with h2 | h2
      · exact Or.inl h2
      · exact Or.inr ⟨f, List.mem_cons_self f fs, h2⟩
    · rcases h1 with ⟨g, hg, ha⟩
      exact Or.inr ⟨g, List.mem_cons_of_mem f hg, ha⟩

/-- Claim C7: referential integrity of the closed-world reference graph.
If a relative specifier of scanned file `A` resolves to path `b`, then `b`
is a scanned file and `A` appears in `b`'s incoming-reference set; the map
has entries only for scanned paths (no edges to unscanned targets); and
re-running with every file at path `p` removed yields incoming-reference
sets that nowhere contain `p`. -/
theorem deadCode_referential_integrity (extract : String → List String)
    (files : List SourceFile) (A : SourceFile) (spec b : String)
    (hA : A ∈ files)
    (hspec : spec ∈ extractRelativeImports extract A.content)
    (hres : resolveRelativeImport A.relativePath spec
      (files.map (fun f => f.relativePath)) = Option.some b) :
    (b ∈ files.map (fun f => f.relativePath) ∧
      A.relativePath ∈ getRefs (incomingRefs extract files) b) ∧
    (∀ k, ((incomingRefs extract files) k).isSome = true →
      k ∈ files.map (fun f => f.relativePath)) ∧
    (∀ (p k : String),
      p ∉ getRefs (incomingRefs extract
        (files.filter (fun f => f.relativePath ≠ p))) k) := by
  have hbmem : b ∈ files.map (fun f => f.relativePath) :=
    resolveRelativeImport_mem A.relativePath spec _ b hres
  refine ⟨⟨hbmem, ?_⟩, ?_, ?_⟩
  · rw [incomingRefs]
    exact foldl_files_adds extract _ files A spec b hA hspec hres _
      ((refMapInit_isSome files b).mpr hbmem)
  · intro k hk
    rw [incomingRefs, foldl_recordFileRefs_isSome] at hk
    exact (refMapInit_isSome files k).mp hk
  · intro p k hmem
    rw [incomingRefs] at hmem
    rcases mem_getRefs_foldl_files_bound extract _ _ _ k p hmem with h1 | h1
    · rw [getRefs_refMapInit] at h1
      cases h1
    · rcases h1 with ⟨f, hf, hp⟩
      have := List.of_mem_filter hf
      simp only [decide_eq_true_eq] at this
      exact this hp.symm

/-- Sample importer file for the reference-graph witness. -/
def fileMain : SourceFile := ⟨"src/main.js", "import \x27./util\x27;", ".js"⟩

/-- Sample imported file for the reference-graph witness. -/
def fileUtil : SourceFile := ⟨"src/util.js", "", ".js"⟩

/-- Witness for `deadCode_referential_integrity`: `src/main.js` imports
`./util`, which resolves to `src/util.js`, and the built map records the
edge. -/
theorem deadCode_referential_integrity_witness :
    fileMain ∈ [fileMain, fileUtil] ∧
    "./util" ∈ extractRelativeImports (fun _ => ["./util"]) fileMain.content ∧
    resolveRelativeImport fileMain.relativePath "./util"
      ([fileMain, fileUtil].map (fun f => f.relativePath)) =
        Option.some "src/util.js" ∧
    ("src/util.js" ∈ [fileMain, fileUtil].map (fun f => f.relativePath) ∧
      fileMain.relativePath ∈
        getRefs (incomingRefs (fun _ => ["./util"]) [fileMain, fileUtil])
          "src/util.js") :=
  ⟨by decide, by decide, by decide,
    (deadCode_referential_integrity (fun _ => ["./util"]) [fileMain, fileUtil]
      fileMain "./util" "src/util.js" (by decide) (by decide) (by decide)).1⟩

/-! ### Export extraction (`extractExports` in `src/analyzers/deadcode.js`)

The three fixed regexes of `extractExports` are implemented here as
character-level matchers with JS `matchAll` semantics (leftmost match,
scanning resumes after each match; every pattern consumes at least one
character).  The whitespace class is the ASCII part of `\s`. -/

/-- Character class `[A-Za-z_$]` (identifier start). -/
def isIdentStartChar (c : Char) : Bool :=
  isLowerAlpha c || isUpperAlpha c || c = '_' || c = '$'

/-- Character class `[A-Za-z0-9_$]` (identifier tail). -/
def isIdentTailChar (c : Char) : Bool := isIdentStartChar c || isDigitChar c

/-- ASCII whitespace (`\s`). -/
def isJsSpace (c : Char) : Bool :=
  c = ' ' || c = '\t' || c = '\n' || c = '\r' || c = '\x0b' || c = '\x0c'

/-- JS word character (`\w`), for `\b` boundaries. -/
def isWordChar (c : Char) : Bool :=
  isLowerAlpha c || isUpperAlpha c || isDigitChar c || c = '_'

/-- Match the regex fragment `[A-Za-z_$][A-Za-z0-9_$]*` (greedy) at the head
of the input, returning the identifier and the rest. -/
def matchIdentAt (cs : List Char) : Option (String × List Char) :=
  match cs with
  | [] => Option.none
  | c :: rest =>
    if isIdentStartChar c then
      Option.some (⟨c :: rest.takeWhile isIdentTailChar⟩, rest.dropWhile isIdentTailChar)
    else Option.none

/-- Match a literal character sequence at the head of the input. -/
def matchLit (lit : List Char) (cs : List Char) : Option (List Char) :=
  match lit, cs with
  | [], rest => Option.some rest
  | _ :: _, [] => Option.none
  | l :: ls, c :: rest => if c = l then matchLit ls rest else Option.none

/-- Match `\s+` (greedy) at the head of the input. -/
def matchWs1 (cs : List Char) : Option (List Char) :=
  match cs with
  | [] => Option.none
  | c :: rest => if isJsSpace c then Option.some (rest.dropWhile isJsSpace) else Option.none

/-- Consume `\s*` (greedy) at the head of the input. -/
def matchWsStar (cs : List Char) : List Char := cs.dropWhile isJsSpace

/-- Match `export\s*\x7b([^\x7d]+)\x7d` at the head of the input, returning
the brace capture and the rest. -/
def matchClauseAt (cs : List Char) : Option (String × List Char) :=
  match matchLit "export".data cs with
  | Option.none => Option.none
  | Option.some r1 =>
    match matchWsStar r1 with
    | '\x7b' :: r3 =>
      let inner := r3.takeWhile (fun c => c ≠ '\x7d')
      if inner.isEmpty then Option.none
      else
        match r3.dropWhile (fun c => c ≠ '\x7d') with
        | '\x7d' :: r5 => Option.some (⟨inner⟩, r5)
        | _ => Option.none
    | _ => Option.none

/-- The declaration keywords of the `export <kw> <Name>` pattern, in the
alternation order of the regex (no keyword is a prefix of another, so JS
alternation backtracking coincides with first-match). -/
def EXPORT_KEYWORDS : List String := ["const", "let", "var", "function", "class"]

/-- Match `export\s+(?:const|let|var|function|class)\s+([A-Za-z_$][A-Za-z0-9_$]*)`
at the head of the input, returning the capture and the rest. -/
def matchDeclAt (cs : List Char) : Option (String × List Char) :=
  match matchLit "export".data cs with
  | Option.none => Option.none
  | Option.some r1 =>
    match matchWs1 r1 with
    | Option.none => Option.none
    | Option.some r2 =>
      EXPORT_KEYWORDS.findSome? (fun kw =>
        match matchLit kw.data r2 with
        | Option.none => Option.none
        | Option.some r3 =>
          match matchWs1 r3 with
          | Option.none => Option.none
          | Option.some r4 => matchIdentAt r4)

/-- Match `export\s+default\b` at the current position (the leading `\b` is
checked by the caller via the previous character). -/
def matchDefaultAt (cs : List Char) : Bool :=
  match matchLit "export".data cs with
  | Option.none => false
  | Option.some r1 =>
    match matchWs1 r1 with
    | Option.none => false
    | Option.some r2 =>
      match matchLit "default".data r2 with
      | Option.none => false
      | Option.some r3 =>
        match r3 with
        | [] => true
        | c :: _ => !isWordChar c

/-- Word-boundary check for the position after `prev`. -/
def boundaryOk : Option Char → Bool
  | Option.none => true
  | Option.some p => !isWordChar p

/-- Scan for `\bexport\s+default\b` anywhere in the text
(the `.test` of the `hasDefault` regex). -/
def hasExportDefaultAux (prev : Option Char) : List Char → Bool
  | [] => false
  | c :: rest =>
    (boundaryOk prev && matchDefaultAt (c :: rest)) ||
      hasExportDefaultAux (Option.some c) rest

/-- Embedding of `/\bexport\s+default\b/.test(content)`. -/
def hasExportDefault (content : String) : Bool :=
  hasExportDefaultAux Option.none content.data

/-- Fuel-indexed scanner implementing `matchAll` semantics: at each
position try the matcher; on a match record the capture and resume after
the consumed text, otherwise advance one character.  Every matcher consumes
at least one character, so `fuel = cs.length` suffices. -/
def scanAllAux {α : Type} (matchAt : List Char → Option (α × List Char)) :
    ℕ → List Char → List α
  | 0, _ => []
  | _ + 1, [] => []
  | fuel + 1, c :: rest =>
    match matchAt (c :: rest) with
    | Option.some (a, after) => a :: scanAllAux matchAt fuel after
    | Option.none => scanAllAux matchAt fuel rest

/-- All captures of a pattern over the text, leftmost and non-overlapping. -/
def scanAll {α : Type} (matchAt : List Char → Option (α × List Char))
    (cs : List Char) : List α :=
  scanAllAux matchAt cs.length cs

/-- Case-insensitive literal `as` (the `/i` flag of the alias regex). -/
def matchAsCI (cs : List Char) : Option (List Char) :=
  match cs with
  | a :: s :: rest => if a.toLower = 'a' && s.toLower = 's' then Option.some rest
    else Option.none
  | _ => Option.none

/-- Anchored match of the alias pattern
`/^([A-Za-z_$][A-Za-z0-9_$]*)(?:\s+as\s+([A-Za-z_$][A-Za-z0-9_$]*))?$/i`
on one comma-separated part: local name plus optional exported alias. -/
def matchAliasPart (cs : List Char) : Option (String × Option String) :=
  match matchIdentAt cs with
  | Option.none => Option.none
  | Option.some (localName, r1) =>
    match r1 with
    | [] => Option.some (localName, Option.none)
    | _ :: _ =>
      match matchWs1 r1 with
      | Option.none => Option.none
      | Option.some r2 =>
        match matchAsCI r2 with
        | Option.none => Option.none
        | Option.some r3 =>
          match matchWs1 r3 with
          | Option.none => Option.none
          | Option.some r4 =>
            match matchIdentAt r4 with
            | Option.none => Option.none
            | Option.some (aliasName, r5) =>
              if r5.isEmpty then Option.some (localName, Option.some aliasName)
              else Option.none

/-- JS `Set.add`: append when absent, keep insertion order. -/
def insertName (names : List String) (n : String) : List String :=
  if n ∈ names then names else names ++ [n]

/-- Split on commas (the `.split(",")` of the clause processing). -/
def splitOnCommaAux (cur : List Char) : List Char → List String
  | [] => [⟨cur.reverse⟩]
  | ',' :: rest => ⟨cur.reverse⟩ :: splitOnCommaAux [] rest
  | c :: rest => splitOnCommaAux (c :: cur) rest

/-- All comma-separated parts of a clause body. -/
def splitOnComma (s : String) : List String := splitOnCommaAux [] s.data

/-- Model of `String.prototype.trim` (ASCII whitespace). -/
def trimChars (s : String) : String :=
  ⟨((s.data.dropWhile isJsSpace).reverse.dropWhile isJsSpace).reverse⟩

/-- The body of the per-part loop of `extractExports`: parts that do not
match the alias pattern are skipped; an exported name of `default` (via
alias, or a bare `default`) sets `hasDefault`, any other part adds the
LOCAL name (`aliasMatch[1]`) to the named set. -/
def processPart (st : List String × Bool) (part : String) : List String × Bool :=
  match matchAliasPart part.data with
  | Option.none => st
  | Option.some (localName, aliasOpt) =>
    let exportedName := aliasOpt.getD localName
    if exportedName = "default" then (st.1, true)
    else (insertName st.1 localName, st.2)

/-- One `export \x7b ... \x7d` clause: split on commas, trim, drop empties,
process each part. -/
def processClause (st : List String × Bool) (inner : String) : List String × Bool :=
  (((splitOnComma inner).map trimChars).filter (fun p => p ≠ "")).foldl processPart st

/-- The `ExportSet` of a file: `{named, hasDefault}`. -/
structure ExportSet where
  named : List String
  hasDefault : Bool
  deriving DecidableEq, Repr

/-- Embedding of `extractExports` from `deadcode.js`: the `export default`
test, then the `export <kw> <Name>` declarations, then the
`export \x7b ... \x7d` clauses. -/
def extractExports (content : String) : ExportSet :=
  let cs := content.data
  let hasDefault0 := hasExportDefault content
  let names0 := (scanAll matchDeclAt cs).foldl insertName []
  let result := (scanAll matchClauseAt cs).foldl processClause (names0, hasDefault0)
  ⟨result.1, result.2⟩

/-- Claim C2 fails on the code: for `export \x7b foo as bar \x7d` the parser
adds the LOCAL name `foo` to the named set (`names.add(localName)`), not the
exported alias `bar` as the claim states. -/
theorem extractExports_alias_counterexample :
    (extractExports "export \x7b foo as bar \x7d").named = ["foo"] ∧
    "bar" ∉ (extractExports "export \x7b foo as bar \x7d").named := by
  refine ⟨by decide, by decide⟩

/-- Claim C2 as amended: for an aliased clause entry the LOCAL name (not
the exported alias) is added to the named set, and an alias whose exported
name is `default` (or a bare `default`) sets `hasDefault` without adding a
named export. -/
theorem extractExports_alias_amended :
    (∀ (names : List String) (hd : Bool) (part localName : String)
      (aliasOpt : Option String),
      matchAliasPart part.data = Option.some (localName, aliasOpt) →
      processPart (names, hd) part =
        (if (aliasOpt.getD localName) = "default" then (names, true)
         else (insertName names localName, hd))) ∧
    extractExports "export \x7b a, b as c \x7d" = ⟨["a", "b"], false⟩ ∧
    extractExports "export \x7b foo as default \x7d" = ⟨[], true⟩ := by
  refine ⟨?_, by decide, by decide⟩
  intro names hd part localName aliasOpt h
  rw [processPart, h]

/-- Witness for `extractExports_alias_amended` at a concrete part. -/
theorem extractExports_alias_amended_witness :
    matchAliasPart ("b as c").data = Option.some ("b", Option.some "c") ∧
    processPart ([], false) "b as c" =
      (if ((Option.some "c").getD "b") = "default" then (([] : List String), true)
       else (insertName [] "b", false)) :=
  ⟨by decide,
    extractExports_alias_amended.1 [] false "b as c" "b" (Option.some "c") (by decide)⟩

end Vibeclean
